import Mathlib

/- Shallow embedding of the auto-pr-reviewer core: the unified-diff parser
   (app/utils/diff_parser.py) and the findings aggregator
   (app/agents/supervisor_agent.py). Python strings are modelled through
   their character lists; Python list indexing, which can raise IndexError,
   is modelled in the Except monad, so the parser's no-exception contract
   is the statement that parse_diff always returns Except.ok. -/

namespace AutoPR

/-- Python-style whitespace test: the characters str.strip and the regex
class match as whitespace in the ASCII range relevant to this code base. -/
def pyIsSpace (c : Char) : Bool :=
  c == ' ' || c == '\t' || c == '\n' || c == '\r' || c == '\x0b' || c == '\x0c'

/-- Boolean list-prefix test, the model of Python str.startswith. -/
def listPre : List Char → List Char → Bool
  | [], _ => true
  | _ :: _, [] => false
  | a :: as, b :: bs => if a = b then listPre as bs else false

/-- Python s.startswith(p). -/
def pyStartsWith (s p : String) : Bool := listPre p.data s.data

/-- Split a character list on a separator character; the result is always
nonempty, matching Python str.split with an explicit separator. -/
def splitOnCharList (sep : Char) : List Char → List (List Char)
  | [] => [[]]
  | c :: cs =>
    match splitOnCharList sep cs with
    | [] => [[c]]
    | y :: ys => if c = sep then [] :: y :: ys else (c :: y) :: ys

/-- Python s.split(sep) for a one-character separator. -/
def pySplit (sep : Char) (s : String) : List String :=
  (splitOnCharList sep s.data).map fun cs => ⟨cs⟩

/-- The lines of a Python string: s.split("\n"). -/
def pyLines (s : String) : List String := pySplit '\n' s

/-- Python "\n".join(lines). -/
def joinLines (ls : List String) : String :=
  ⟨List.intercalate ['\n'] (ls.map String.data)⟩

/-- Python s.strip(): whitespace removed from both ends. -/
def pyStrip (s : String) : String :=
  ⟨((s.data.dropWhile pyIsSpace).reverse.dropWhile pyIsSpace).reverse⟩

/-- Python s[k:]. -/
def strDrop (k : Nat) (s : String) : String := ⟨s.data.drop k⟩

/-- Python s[1:]. -/
def strTail (s : String) : String := ⟨s.data.tail⟩

/-- Python list indexing l[n]: raises IndexError when out of range. -/
def pyIndex {α : Type} (l : List α) (n : Nat) : Except String α :=
  match l.get? n with
  | some a => Except.ok a
  | none => Except.error "IndexError"

/-- The Literal["added", "removed", "context"] tag of
app/models/diff_models.py. -/
inductive ChangeType
  | added
  | removed
  | context
deriving DecidableEq

/-- Change of app/models/diff_models.py. -/
structure Change where
  line_number : Nat
  type : ChangeType
  content : String
deriving DecidableEq

/-- FileChange of app/models/diff_models.py. -/
structure FileChange where
  filename : String
  changes : List Change
deriving DecidableEq

/-- DiffResult of app/models/diff_models.py. -/
structure DiffResult where
  files : List FileChange
deriving DecidableEq

/-- Greedy digit run, the regex fragment for one or more digits. -/
def takeDigits (l : List Char) : List Char × List Char :=
  (l.takeWhile Char.isDigit, l.dropWhile Char.isDigit)

/-- Numeric value of a digit run, as Python int() on the captured group. -/
def digitsToNat (l : List Char) : Nat :=
  l.foldl (fun n c => n * 10 + (c.toNat - 48)) 0

/-- After a start number in the hunk header: the optional comma-and-count
group followed by a mandatory space. Returns the optional count and the
rest of the line; none models a failed regex match. -/
def afterNum : List Char → Option (Option Nat × List Char)
  | ',' :: rest =>
    let p := takeDigits rest
    if p.1.isEmpty then none
    else
      match p.2 with
      | ' ' :: r2 => some (some (digitsToNat p.1), r2)
      | _ => none
  | ' ' :: r2 => some (none, r2)
  | _ => none

/-- The part of the hunk header after the opening marker and dash. -/
def hunkTailParse (r : List Char) : Option (Nat × Option Nat × Nat × Option Nat) :=
  let p1 := takeDigits r
  if p1.1.isEmpty then none
  else
    match afterNum p1.2 with
    | none => none
    | some (c1, r2) =>
      match r2 with
      | '+' :: r3 =>
        let p3 := takeDigits r3
        if p3.1.isEmpty then none
        else
          match afterNum p3.2 with
          | none => none
          | some (c2, r5) =>
            if listPre ['@', '@'] r5 then some (digitsToNat p1.1, c1, digitsToNat p3.1, c2)
            else none
      | _ => none

/-- re.match of the hunk header pattern in _parse_file_changes: the
anchored regex matches a prefix of the line and yields
(oldStart, oldCount?, newStart, newCount?). -/
def parseHunkHeader (l : List Char) : Option (Nat × Option Nat × Nat × Option Nat) :=
  if listPre "@@ -".data l then hunkTailParse (l.drop 4) else none

/-- The two start positions of a hunk header, when the header matches. -/
def hunkStarts (l : List Char) : Option (Nat × Nat) :=
  (parseHunkHeader l).map fun t => (t.1, t.2.2.1)

/-- The metadata-line tests at the top of the loop body of
_parse_file_changes. -/
def isMetadataLine (l : String) : Bool :=
  pyStartsWith l "---" || pyStartsWith l "+++" || pyStartsWith l "diff" ||
  pyStartsWith l "index " || pyStartsWith l "new file" || pyStartsWith l "deleted file" ||
  pyStartsWith l "similarity index" || pyStartsWith l "rename"

/-- The per-line loop of _parse_file_changes, carrying old_line_num,
new_line_num and in_hunk. -/
def parseChangesGo : List String → Nat → Nat → Bool → List Change
  | [], _, _, _ => []
  | l :: rest, o, n, ih =>
    if isMetadataLine l then parseChangesGo rest o n ih
    else
      match parseHunkHeader l.data with
      | some t => parseChangesGo rest t.1 t.2.2.1 true
      | none =>
        if ih then
          if pyStartsWith l " " then
            { line_number := n, type := ChangeType.context, content := strTail l } ::
              parseChangesGo rest (o + 1) (n + 1) ih
          else if pyStartsWith l "-" then
            { line_number := o, type := ChangeType.removed, content := strTail l } ::
              parseChangesGo rest (o + 1) n ih
          else if pyStartsWith l "+" then
            { line_number := n, type := ChangeType.added, content := strTail l } ::
              parseChangesGo rest o (n + 1) ih
          else parseChangesGo rest o n ih
        else parseChangesGo rest o n ih

/-- _parse_file_changes of app/utils/diff_parser.py. -/
def _parse_file_changes (s : String) : List Change :=
  parseChangesGo (pyLines s) 0 0 false

/-- The lazy-group search step of the diff --git regex: given the text
after the literal "diff --git a/", find the shortest nonempty first group
such that a nonempty whitespace run, then "b/", then a nonempty second
group follow; the second group extends to the end of the line. -/
def diffGitSplit : List Char → List Char → Option (List Char × List Char)
  | _, [] => none
  | acc, c :: cs =>
    let g1 := acc ++ [c]
    let ws := cs.takeWhile pyIsSpace
    let r := cs.drop ws.length
    if ws.isEmpty then diffGitSplit g1 cs
    else
      match r with
      | 'b' :: '/' :: d :: tl => some (g1, d :: tl)
      | _ => diffGitSplit g1 cs

/-- re.search of the diff --git pattern over a whole line: start positions
are tried left to right. -/
def searchDiffGit : List Char → Option (List Char × List Char)
  | [] => none
  | c :: cs =>
    if listPre "diff --git a/".data (c :: cs) then
      match diffGitSplit [] ((c :: cs).drop 13) with
      | some r => some r
      | none => searchDiffGit cs
    else searchDiffGit cs

/-- The per-line scan of _extract_filename; the indexing into the result
of split on tab is modelled with pyIndex. -/
def extractFilenameGo : List String → Except String String
  | [] => Except.ok ""
  | l :: rest =>
    if pyStartsWith l "--- a/" then
      pyIndex (pySplit '\t' (pyStrip (strDrop 6 l))) 0
    else if pyStartsWith l "+++ b/" then
      pyIndex (pySplit '\t' (pyStrip (strDrop 6 l))) 0
    else if pyStartsWith l "diff --git" then
      match searchDiffGit l.data with
      | some r => Except.ok (pyStrip ⟨r.2⟩)
      | none => extractFilenameGo rest
    else extractFilenameGo rest

/-- _extract_filename of app/utils/diff_parser.py. -/
def _extract_filename (s : String) : Except String String :=
  extractFilenameGo (pyLines s)

/-- The marker-driven accumulation loop shared by both splitting passes of
_split_into_file_sections. -/
def splitMarkerGo (isMarker : String → Bool) (cur : List String) : List String → List (List String)
  | [] => if cur.isEmpty then [] else [cur]
  | l :: ls =>
    if isMarker l then
      if cur.isEmpty then splitMarkerGo isMarker [l] ls
      else cur :: splitMarkerGo isMarker [l] ls
    else splitMarkerGo isMarker (cur ++ [l]) ls

/-- re.match of the anchored diff --git pattern: the primary section
marker. -/
def isDiffGitLine (l : String) : Bool := pyStartsWith l "diff --git"

/-- The fallback section marker test on a line. -/
def isDashALine (l : String) : Bool := pyStartsWith l "--- a/"

/-- The fallback condition of _split_into_file_sections: no primary
section at all, or a single one whose first line is not a diff --git
marker. The short-circuit of the Python or-expression protects the two
indexings, which are modelled with pyIndex. -/
def sectionsFallbackTest (primary : List String) : Except String Bool :=
  if primary.isEmpty then Except.ok true
  else if primary.length == 1 then
    match pyIndex primary 0 with
    | Except.error msg => Except.error msg
    | Except.ok s0 =>
      match pyIndex (pyLines s0) 0 with
      | Except.error msg => Except.error msg
      | Except.ok f0 => Except.ok (!(isDiffGitLine f0))
  else Except.ok false

/-- _split_into_file_sections of app/utils/diff_parser.py. The only
operations that can raise are the two indexings in the fallback test. -/
def _split_into_file_sections (s : String) : Except String (List String) :=
  match sectionsFallbackTest ((splitMarkerGo isDiffGitLine [] (pyLines s)).map joinLines) with
  | Except.error msg => Except.error msg
  | Except.ok cond =>
    let sections :=
      if cond then (splitMarkerGo isDashALine [] (pyLines s)).map joinLines
      else (splitMarkerGo isDiffGitLine [] (pyLines s)).map joinLines
    Except.ok (if sections.isEmpty then [s] else sections)

/-- The per-section loop of parse_diff. -/
def parseSectionsGo : List String → Except String (List FileChange)
  | [] => Except.ok []
  | sec :: rest =>
    if (pyStrip sec).data.isEmpty then parseSectionsGo rest
    else
      match _extract_filename sec with
      | Except.error msg => Except.error msg
      | Except.ok filename =>
        if filename.data.isEmpty then parseSectionsGo rest
        else
          match parseSectionsGo rest with
          | Except.error msg => Except.error msg
          | Except.ok files =>
            Except.ok ({ filename := filename, changes := _parse_file_changes sec } :: files)

/-- parse_diff of app/utils/diff_parser.py, with Python exceptions
modelled as Except.error. -/
def parse_diff (s : String) : Except String DiffResult :=
  match _split_into_file_sections s with
  | Except.error msg => Except.error msg
  | Except.ok sections =>
    match parseSectionsGo sections with
    | Except.error msg => Except.error msg
    | Except.ok files => Except.ok { files := files }

/-- One finding record, a Python dict. The keys file, line, issue_type,
description and suggestion are required by the analyzer interface; the
source_agent, merged_from and source_agents keys may be absent, which is
modelled with Option (none = key absent). -/
structure Finding where
  file : String
  line : Int
  issue_type : String
  description : String
  suggestion : String
  source_agent : Option String := none
  merged_from : Option Nat := none
  source_agents : Option (List String) := none
deriving DecidableEq

/-- First-occurrence deduplication loop: the key order of a Python dict
built by insertion. -/
def dedupFOGo {α : Type} [DecidableEq α] (seen : List α) : List α → List α
  | [] => []
  | x :: xs => if x ∈ seen then dedupFOGo seen xs else x :: dedupFOGo (seen ++ [x]) xs

/-- Distinct elements of a list in first-occurrence order. -/
def dedupFO {α : Type} [DecidableEq α] (l : List α) : List α := dedupFOGo [] l

/-- Python "; ".join(l). -/
def joinSemi (l : List String) : String :=
  ⟨List.intercalate [';', ' '] (l.map String.data)⟩

/-- The (file, line) grouping key used by _merge_duplicate_issues. -/
def findingKey (i : Finding) : String × Int := (i.file, i.line)

/-- A list that enumerates exactly the distinct elements of another list:
the guarantee Python gives for list(set(xs)). Python does not specify the
order (it is hash-iteration order and varies across processes), so the
functions below take the enumeration as a parameter constrained by this
predicate. -/
def IsSetEnum (ys xs : List String) : Prop :=
  ys.Nodup ∧ (∀ a ∈ ys, a ∈ xs) ∧ (∀ a ∈ xs, a ∈ ys)

instance (ys xs : List String) : Decidable (IsSetEnum ys xs) := by
  unfold IsSetEnum
  infer_instance

/-- Record standing for the empty dict Python returns in the unreachable
empty-group case of _merge_issues_at_location. -/
def emptyFinding : Finding :=
  { file := "", line := 0, issue_type := "", description := "", suggestion := "" }

/-- _merge_issues_at_location of app/agents/supervisor_agent.py. Python
computes unique_descriptions and unique_suggestions as list(set(...)),
whose order is unspecified; the parameter e models that enumeration and is
constrained to IsSetEnum in the theorems. Python's test on the number of
distinct issue types is order-independent and is embedded as a
distinct-count; the kept value in the all-equal case is the first one. -/
def _merge_issues_at_location (e : List String → List String) (issues : List Finding) : Finding :=
  match issues with
  | [] => emptyFinding
  | base :: rest =>
    let all := base :: rest
    let issue_types := all.map Finding.issue_type
    let descriptions := all.map Finding.description
    let suggestions := all.map Finding.suggestion
    let keptType := if (dedupFO issue_types).length == 1 then base.issue_type else "multiple_issues"
    let uD := e descriptions
    let keptDesc :=
      if uD.length == 1 then uD.headD ""
      else "Multiple issues detected: " ++ joinSemi (uD.take 3)
    let uS := e suggestions
    let keptSug :=
      if uS.length == 1 then uS.headD ""
      else "Consider: " ++ joinSemi (uS.take 2)
    { base with
      issue_type := keptType
      description := keptDesc
      suggestion := keptSug
      merged_from := some all.length
      source_agents := some (all.map fun i => i.source_agent.getD "unknown") }

/-- The per-location body of _merge_duplicate_issues: collect the group of
issues at one (file, line) key, pass it through if it is a singleton,
merge it otherwise. -/
def mergeGroupAt (e : List String → List String) (all_issues : List Finding)
    (k : String × Int) : Finding :=
  let grp := all_issues.filter fun i => decide (findingKey i = k)
  if grp.length == 1 then grp.headD emptyFinding
  else _merge_issues_at_location e grp

/-- _merge_duplicate_issues of app/agents/supervisor_agent.py: group by
(file, line) in first-occurrence order (Python dict insertion order), pass
singleton groups through unchanged, merge larger groups. -/
def _merge_duplicate_issues (e : List String → List String) (all_issues : List Finding) : List Finding :=
  if all_issues.isEmpty then []
  else (dedupFO (all_issues.map findingKey)).map (mergeGroupAt e all_issues)

/-- The final review dictionary built by _format_final_review; Python
dicts are modelled as insertion-ordered association lists and the summary
sub-dict is inlined as the first five fields. -/
structure Report where
  total_issues_found : Nat
  unique_issues_after_merge : Nat
  issues_by_agent : List (String × Nat)
  files_affected : Nat
  issue_types : Nat
  issues_by_file : List (String × List Finding)
  issues_by_type : List (String × List Finding)
  all_issues : List Finding
  agent_results : List (String × Nat × List Finding)
deriving DecidableEq

/-- Insertion-ordered grouping of findings under a string key, as the
dict-building loops of _format_final_review. -/
def groupByStr (key : Finding → String) (issues : List Finding) : List (String × List Finding) :=
  (dedupFO (issues.map key)).map fun k => (k, issues.filter fun i => decide (key i = k))

/-- _format_final_review of app/agents/supervisor_agent.py. -/
def _format_final_review (agent_results : List (String × List Finding)) (merged : List Finding) : Report :=
  let byAgent := agent_results.map fun t => (t.1, t.2.length)
  { total_issues_found := (byAgent.map fun t => t.2).sum
    unique_issues_after_merge := merged.length
    issues_by_agent := byAgent
    files_affected := (groupByStr Finding.file merged).length
    issue_types := (groupByStr Finding.issue_type merged).length
    issues_by_file := groupByStr Finding.file merged
    issues_by_type := groupByStr Finding.issue_type merged
    all_issues := merged
    agent_results := agent_results.map fun t => (t.1, t.2.length, t.2) }

/-- _run_all_agents of app/agents/supervisor_agent.py: each sub-agent call
either returns a finding list or raises; a raising agent is recorded with
the empty list and the loop continues. The agent calls themselves are
external LLM invocations, so they enter the model as the outputs
parameter, one (name, result) pair per sub-agent, and okList extracts the
recorded list. -/
def okList (r : Except Unit (List Finding)) : List Finding :=
  match r with
  | Except.ok xs => xs
  | Except.error _ => []

/-- See okList: a raised exception from one agent is recorded as []. -/
def _run_all_agents (outputs : List (String × Except Unit (List Finding))) : List (String × List Finding) :=
  outputs.map fun t => (t.1, okList t.2)

/-- Step 2 of analyze: tag every finding of one agent with the agent name.
In Python this mutates the finding dicts in place. -/
def tagFindings (n : String) (xs : List Finding) : List Finding :=
  xs.map fun i => { i with source_agent := some n }

/-- analyze of SupervisorAgent from the collected per-agent results
onward. Because Python's step 2 mutates each finding dict in place, the
lists reachable from agent_results and the elements of all_issues are the
same objects after tagging; the embedding therefore uses the tagged lists
in both places. -/
def analyze_from_results (e : List String → List String) (agent_results : List (String × List Finding)) : Report :=
  let tagged := agent_results.map fun t => (t.1, tagFindings t.1 t.2)
  let all_issues := (tagged.map fun t => t.2).flatten
  let merged := _merge_duplicate_issues e all_issues
  _format_final_review tagged merged

/-- analyze of SupervisorAgent of app/agents/supervisor_agent.py. -/
def analyze (e : List String → List String) (outputs : List (String × Except Unit (List Finding))) : Report :=
  analyze_from_results e (_run_all_agents outputs)

/-- The tagged flattening of all raw findings: the all_issues list that
analyze hands to _merge_duplicate_issues. -/
def taggedAll (outputs : List (String × Except Unit (List Finding))) : List Finding :=
  (((_run_all_agents outputs).map fun t => (t.1, tagFindings t.1 t.2)).map fun t => t.2).flatten

/-- Abstract hunk-body tokens used to state the numbering claims; a token
denotes one raw patch line. -/
inductive HunkTok
  | header (line : String) (oldStart newStart : Nat)
  | ctx (s : String)
  | rem (s : String)
  | add (s : String)

/-- The raw patch line denoted by a token. -/
def renderTok : HunkTok → String
  | HunkTok.header line _ _ => line
  | HunkTok.ctx s => " " ++ s
  | HunkTok.rem s => "-" ++ s
  | HunkTok.add s => "+" ++ s

/-- Side conditions making a token's rendered line classify as intended: a
header line must match the hunk regex with the stated start values, and
removed and added contents must not begin with a doubled marker character,
because the code treats such lines as file metadata. -/
def GoodTok : HunkTok → Prop
  | HunkTok.header line a b => hunkStarts line.data = some (a, b)
  | HunkTok.ctx _ => True
  | HunkTok.rem s => listPre "--".data s.data = false
  | HunkTok.add s => listPre "++".data s.data = false

instance : DecidablePred GoodTok := fun t =>
  match t with
  | HunkTok.header line a b => inferInstanceAs (Decidable (hunkStarts line.data = some (a, b)))
  | HunkTok.ctx _ => inferInstanceAs (Decidable True)
  | HunkTok.rem s => inferInstanceAs (Decidable (listPre "--".data s.data = false))
  | HunkTok.add s => inferInstanceAs (Decidable (listPre "++".data s.data = false))

/-- Modelled from the spec: the line numbering rule of section 4.1 — a
hunk header resets the counters to its start values; a context line is
numbered in the new file and advances both counters; a removed line is
numbered in the old file and advances only it; an added line is numbered
in the new file and advances only it; the count fields of a header play no
role. -/
def specHunkNumber : Nat → Nat → List HunkTok → List Change
  | _, _, [] => []
  | _, _, HunkTok.header _ a b :: ts => specHunkNumber a b ts
  | o, n, HunkTok.ctx s :: ts =>
    { line_number := n, type := ChangeType.context, content := s } :: specHunkNumber (o + 1) (n + 1) ts
  | o, n, HunkTok.rem s :: ts =>
    { line_number := o, type := ChangeType.removed, content := s } :: specHunkNumber (o + 1) n ts
  | o, n, HunkTok.add s :: ts =>
    { line_number := n, type := ChangeType.added, content := s } :: specHunkNumber o (n + 1) ts

/-- A concrete set enumeration that lists first occurrences in reverse:
one admissible order for Python's list(set(...)). -/
def revDedup (xs : List String) : List String := (dedupFO xs).reverse

/-- A sample raw finding used in concrete instances. -/
def sampleFinding : Finding :=
  { file := "x.py", line := 5, issue_type := "t1", description := "d", suggestion := "s" }

/-- A second raw finding at the same location with a different type. -/
def sampleFindingT2 : Finding :=
  { file := "x.py", line := 5, issue_type := "t2", description := "d2", suggestion := "s2" }

/-- A tagged finding with description a. -/
def findingDescA : Finding :=
  { file := "x.py", line := 5, issue_type := "t", description := "a", suggestion := "s",
    source_agent := some "A" }

/-- A tagged finding at the same location with description b. -/
def findingDescB : Finding :=
  { file := "x.py", line := 5, issue_type := "t", description := "b", suggestion := "s",
    source_agent := some "B" }

/-- Unfolding equation of listPre on two cons cells. -/
theorem listPre_cons (a b : Char) (p s : List Char) :
    listPre (a :: p) (b :: s) = if a = b then listPre p s else false := rfl

/-- A successful prefix test exposes the prefix structurally. -/
theorem listPre_exists_append : ∀ {p s : List Char}, listPre p s = true → ∃ t, s = p ++ t := by
  intro p
  induction p with
  | nil => exact fun h => ⟨_, rfl⟩
  | cons a as ih =>
    intro s h
    cases s with
    | nil => exact absurd h (by simp [listPre])
    | cons b bs =>
      rw [listPre_cons] at h
      split at h
      · next hab =>
        subst hab
        obtain ⟨t, ht⟩ := ih h
        exact ⟨t, by rw [ht, List.cons_append]⟩
      · exact absurd h (by simp)

/-- Splitting never returns the empty list of pieces. -/
theorem splitOnCharList_ne_nil (sep : Char) (l : List Char) : splitOnCharList sep l ≠ [] := by
  cases l with
  | nil => simp [splitOnCharList]
  | cons c cs =>
    unfold splitOnCharList
    rcases h : splitOnCharList sep cs with _ | ⟨y, ys⟩
    · simp
    · simp only [h]
      split <;> simp

/-- Python split always returns at least one piece. -/
theorem pySplit_ne_nil (sep : Char) (s : String) : pySplit sep s ≠ [] := by
  unfold pySplit
  intro h
  exact splitOnCharList_ne_nil sep s.data (by simpa using h)

/-- splitlines of a Python string is never empty. -/
theorem pyLines_ne_nil (s : String) : pyLines s ≠ [] := pySplit_ne_nil '\n' s

/-- Indexing a nonempty list at zero returns its head. -/
theorem pyIndex_zero_headD {α : Type} (l : List α) (d : α) (h : l ≠ []) :
    pyIndex l 0 = Except.ok (l.headD d) := by
  cases l with
  | nil => exact absurd rfl h
  | cons a t => rfl

/-- Indexing a nonempty list at zero succeeds. -/
theorem pyIndex_zero_ok {α : Type} (l : List α) (h : l ≠ []) : ∃ a, pyIndex l 0 = Except.ok a := by
  cases l with
  | nil => exact absurd rfl h
  | cons a t => exact ⟨a, rfl⟩

/-- The filename scan can never raise: the only indexing is at position
zero of a split result, which is never empty. -/
theorem extractFilenameGo_ok (ls : List String) : ∃ r, extractFilenameGo ls = Except.ok r := by
  induction ls with
  | nil => exact ⟨"", rfl⟩
  | cons l rest ih =>
    unfold extractFilenameGo
    by_cases h1 : pyStartsWith l "--- a/" = true
    · simp only [h1, if_true]
      exact pyIndex_zero_ok _ (pySplit_ne_nil _ _)
    · by_cases h2 : pyStartsWith l "+++ b/" = true
      · simp only [h1, h2, if_false, if_true]
        exact pyIndex_zero_ok _ (pySplit_ne_nil _ _)
      · by_cases h3 : pyStartsWith l "diff --git" = true
        · simp only [h1, h2, h3, if_false, if_true]
          rcases hs : searchDiffGit l.data with _ | r
          · simpa using ih
          · exact ⟨_, rfl⟩
        · simpa [h1, h2, h3] using ih

/-- The per-section loop can never raise. -/
theorem parseSectionsGo_ok (ls : List String) : ∃ r, parseSectionsGo ls = Except.ok r := by
  induction ls with
  | nil => exact ⟨[], rfl⟩
  | cons sec rest ih =>
    unfold parseSectionsGo
    by_cases h1 : (pyStrip sec).data.isEmpty = true
    · simpa [h1] using ih
    · obtain ⟨fn, hfn⟩ := extractFilenameGo_ok (pyLines sec)
      have hfn2 : _extract_filename sec = Except.ok fn := hfn
      by_cases h2 : fn.data.isEmpty = true
      · simpa [h1, hfn2, h2] using ih
      · obtain ⟨files, hfl⟩ := ih
        exact ⟨{ filename := fn, changes := _parse_file_changes sec } :: files,
          by simp [h1, hfn2, h2, hfl]⟩

/-- The fallback test can never raise: both indexings are guarded. -/
theorem sectionsFallbackTest_ok (primary : List String) :
    ∃ b, sectionsFallbackTest primary = Except.ok b := by
  unfold sectionsFallbackTest
  rcases primary with _ | ⟨p, ps⟩
  · exact ⟨true, rfl⟩
  · rcases ps with _ | ⟨q, qs⟩
    · rcases hpl : pyLines p with _ | ⟨f, fs⟩
      · exact absurd hpl (pyLines_ne_nil p)
      · exact ⟨!(isDiffGitLine f), by simp [pyIndex, hpl]⟩
    · refine ⟨false, ?_⟩
      rw [if_neg (by simp), if_neg (by simp [beq_eq_false_iff_ne])]

/-- The section splitter can never raise. -/
theorem split_into_file_sections_ok (s : String) :
    ∃ r, _split_into_file_sections s = Except.ok r := by
  unfold _split_into_file_sections
  obtain ⟨b, hb⟩ := sectionsFallbackTest_ok ((splitMarkerGo isDiffGitLine [] (pyLines s)).map joinLines)
  exact ⟨_, by rw [hb]⟩

/-- Claim C1: parse_diff terminates and returns a DiffResult on every
input without raising (every potentially raising operation is guarded, so
the Except-modelled parser always returns ok), and the empty input yields
a DiffResult with an empty files sequence. -/
theorem C1_parse_never_fails_and_empty_input :
    (∀ s : String, ∃ r : DiffResult, parse_diff s = Except.ok r) ∧
    parse_diff "" = Except.ok { files := [] } := by
  constructor
  · intro s
    unfold parse_diff
    obtain ⟨sections, hs⟩ := split_into_file_sections_ok s
    obtain ⟨files, hf⟩ := parseSectionsGo_ok sections
    exact ⟨{ files := files }, by simp only [hs, hf]⟩
  · rfl

/-- Claim C10: the worked example from the spec parses to one FileChange
for f.py with context 1, context 2, added 3, context 4. -/
theorem C10_worked_example :
    parse_diff "--- a/f.py\n+++ b/f.py\n@@ -1,3 +1,4 @@\n line1\n line2\n+new line\n line3\n" =
      Except.ok { files := [{ filename := "f.py", changes := [
        { line_number := 1, type := ChangeType.context, content := "line1" },
        { line_number := 2, type := ChangeType.context, content := "line2" },
        { line_number := 3, type := ChangeType.added, content := "new line" },
        { line_number := 4, type := ChangeType.context, content := "line3" }] }] } := by
  rfl

/-- Claim C3 counterexample: inside a hunk, the line "---x" has first
character '-' and is not a hunk header, so the claim requires a Removed
change with content "--x"; the code's metadata filter runs on every line,
also inside hunks, and silently drops it, emitting nothing. -/
theorem C3_counterexample :
    _parse_file_changes "@@ -1,1 +1,1 @@\n---x" = [] ∧
    "---x".data.head? = some '-' ∧
    parseHunkHeader "---x".data = none := by
  exact ⟨rfl, rfl, rfl⟩

/-- Character data of the dash metadata marker. -/
theorem data_meta1 : "---".data = ['-', '-', '-'] := rfl

/-- Character data of the plus metadata marker. -/
theorem data_meta2 : "+++".data = ['+', '+', '+'] := rfl

/-- Character data of the diff metadata marker. -/
theorem data_meta3 : "diff".data = ['d', 'i', 'f', 'f'] := rfl

/-- Character data of the index metadata marker. -/
theorem data_meta4 : "index ".data = ['i', 'n', 'd', 'e', 'x', ' '] := rfl

/-- Character data of the new-file metadata marker. -/
theorem data_meta5 : "new file".data = ['n', 'e', 'w', ' ', 'f', 'i', 'l', 'e'] := rfl

/-- Character data of the deleted-file metadata marker. -/
theorem data_meta6 : "deleted file".data = ['d', 'e', 'l', 'e', 't', 'e', 'd', ' ', 'f', 'i', 'l', 'e'] := rfl

/-- Character data of the similarity metadata marker. -/
theorem data_meta7 : "similarity index".data =
    ['s', 'i', 'm', 'i', 'l', 'a', 'r', 'i', 't', 'y', ' ', 'i', 'n', 'd', 'e', 'x'] := rfl

/-- Character data of the rename metadata marker. -/
theorem data_meta8 : "rename".data = ['r', 'e', 'n', 'a', 'm', 'e'] := rfl

/-- Character data of the hunk opener. -/
theorem data_hunk : "@@ -".data = ['@', '@', ' ', '-'] := rfl

/-- Rebuilding a string from its characters is the identity. -/
theorem mk_data_eta (s : String) : String.mk s.data = s := rfl

/-- A line whose first character is none of the metadata initials is not a
metadata line. -/
theorem isMetadataLine_false_head (l : String) (c : Char) (t : List Char) (hd : l.data = c :: t)
    (h1 : c ≠ '-') (h2 : c ≠ '+') (h3 : c ≠ 'd') (h4 : c ≠ 'i') (h5 : c ≠ 'n')
    (h6 : c ≠ 's') (h7 : c ≠ 'r') : isMetadataLine l = false := by
  have e1 : ¬('-' = c) := fun h => h1 h.symm
  have e2 : ¬('+' = c) := fun h => h2 h.symm
  have e3 : ¬('d' = c) := fun h => h3 h.symm
  have e4 : ¬('i' = c) := fun h => h4 h.symm
  have e5 : ¬('n' = c) := fun h => h5 h.symm
  have e6 : ¬('s' = c) := fun h => h6 h.symm
  have e7 : ¬('r' = c) := fun h => h7 h.symm
  simp [isMetadataLine, pyStartsWith, hd, data_meta1, data_meta2, data_meta3, data_meta4,
    data_meta5, data_meta6, data_meta7, data_meta8, listPre_cons, e1, e2, e3, e4, e5, e6, e7]

/-- A line starting with a dash that does not begin with three dashes is
not a metadata line. -/
theorem isMetadataLine_false_dash (l : String) (t : List Char) (hd : l.data = '-' :: t)
    (h3 : listPre ['-', '-'] t = false) : isMetadataLine l = false := by
  simp [isMetadataLine, pyStartsWith, hd, data_meta1, data_meta2, data_meta3, data_meta4,
    data_meta5, data_meta6, data_meta7, data_meta8, listPre_cons, h3]

/-- A line starting with a plus that does not begin with three pluses is
not a metadata line. -/
theorem isMetadataLine_false_plus (l : String) (t : List Char) (hd : l.data = '+' :: t)
    (h3 : listPre ['+', '+'] t = false) : isMetadataLine l = false := by
  simp [isMetadataLine, pyStartsWith, hd, data_meta1, data_meta2, data_meta3, data_meta4,
    data_meta5, data_meta6, data_meta7, data_meta8, listPre_cons, h3]

/-- A line not beginning with the at sign never matches the hunk header
regex. -/
theorem parseHunkHeader_none_head (l : List Char) (c : Char) (t : List Char) (hd : l = c :: t)
    (h : c ≠ '@') : parseHunkHeader l = none := by
  have e : ¬('@' = c) := fun hh => h hh.symm
  simp [parseHunkHeader, hd, data_hunk, listPre_cons, e]

/-- Step lemma: a context line emits a Context change numbered in the new
file and advances both counters. -/
theorem parseChangesGo_ctx (l : String) (rest : List String) (o n : Nat)
    (t : List Char) (hd : l.data = ' ' :: t) :
    parseChangesGo (l :: rest) o n true =
      { line_number := n, type := ChangeType.context, content := strTail l } ::
        parseChangesGo rest (o + 1) (n + 1) true := by
  have hmeta : isMetadataLine l = false :=
    isMetadataLine_false_head l ' ' t hd (by decide) (by decide) (by decide) (by decide)
      (by decide) (by decide) (by decide)
  have hhunk : parseHunkHeader l.data = none :=
    parseHunkHeader_none_head l.data ' ' t hd (by decide)
  have hsw : pyStartsWith l " " = true := by
    simp [pyStartsWith, hd, listPre_cons, show " ".data = [' '] from rfl, listPre]
  simp only [parseChangesGo]
  simp [hmeta, hhunk, hsw]

/-- Step lemma: a removed line that is not a dash metadata marker emits a
Removed change numbered in the old file and advances only the old
counter. -/
theorem parseChangesGo_rem (l : String) (rest : List String) (o n : Nat)
    (t : List Char) (hd : l.data = '-' :: t) (h3 : listPre ['-', '-'] t = false) :
    parseChangesGo (l :: rest) o n true =
      { line_number := o, type := ChangeType.removed, content := strTail l } ::
        parseChangesGo rest (o + 1) n true := by
  have hmeta : isMetadataLine l = false := isMetadataLine_false_dash l t hd h3
  have hhunk : parseHunkHeader l.data = none :=
    parseHunkHeader_none_head l.data '-' t hd (by decide)
  have hsw0 : pyStartsWith l " " = false := by
    simp [pyStartsWith, hd, listPre_cons, show " ".data = [' '] from rfl]
  have hsw : pyStartsWith l "-" = true := by
    simp [pyStartsWith, hd, listPre_cons, show "-".data = ['-'] from rfl, listPre]
  simp only [parseChangesGo]
  simp [hmeta, hhunk, hsw0, hsw]

/-- Step lemma: an added line that is not a plus metadata marker emits an
Added change numbered in the new file and advances only the new
counter. -/
theorem parseChangesGo_add (l : String) (rest : List String) (o n : Nat)
    (t : List Char) (hd : l.data = '+' :: t) (h3 : listPre ['+', '+'] t = false) :
    parseChangesGo (l :: rest) o n true =
      { line_number := n, type := ChangeType.added, content := strTail l } ::
        parseChangesGo rest o (n + 1) true := by
  have hmeta : isMetadataLine l = false := isMetadataLine_false_plus l t hd h3
  have hhunk : parseHunkHeader l.data = none :=
    parseHunkHeader_none_head l.data '+' t hd (by decide)
  have hsw0 : pyStartsWith l " " = false := by
    simp [pyStartsWith, hd, listPre_cons, show " ".data = [' '] from rfl]
  have hsw1 : pyStartsWith l "-" = false := by
    simp [pyStartsWith, hd, listPre_cons, show "-".data = ['-'] from rfl]
  have hsw : pyStartsWith l "+" = true := by
    simp [pyStartsWith, hd, listPre_cons, show "+".data = ['+'] from rfl, listPre]
  simp only [parseChangesGo]
  simp [hmeta, hhunk, hsw0, hsw1, hsw]

/-- Step lemma: a backslash line (no-newline marker) is skipped with no
counter change. -/
theorem parseChangesGo_backslash (l : String) (rest : List String) (o n : Nat)
    (t : List Char) (hd : l.data = '\\' :: t) :
    parseChangesGo (l :: rest) o n true = parseChangesGo rest o n true := by
  have hmeta : isMetadataLine l = false :=
    isMetadataLine_false_head l '\\' t hd (by decide) (by decide) (by decide) (by decide)
      (by decide) (by decide) (by decide)
  have hhunk : parseHunkHeader l.data = none :=
    parseHunkHeader_none_head l.data '\\' t hd (by decide)
  have hsw0 : pyStartsWith l " " = false := by
    simp [pyStartsWith, hd, listPre_cons, show " ".data = [' '] from rfl]
  have hsw1 : pyStartsWith l "-" = false := by
    simp [pyStartsWith, hd, listPre_cons, show "-".data = ['-'] from rfl]
  have hsw2 : pyStartsWith l "+" = false := by
    simp [pyStartsWith, hd, listPre_cons, show "+".data = ['+'] from rfl]
  simp only [parseChangesGo]
  simp [hmeta, hhunk, hsw0, hsw1, hsw2]

/-- Step lemma: a line matching the hunk header regex resets the counters
to the header's start values and enters hunk mode, whatever the previous
state was. -/
theorem parseChangesGo_header (l : String) (rest : List String) (o n : Nat) (b0 : Bool)
    (tu : Nat × Option Nat × Nat × Option Nat) (htu : parseHunkHeader l.data = some tu) :
    parseChangesGo (l :: rest) o n b0 = parseChangesGo rest tu.1 tu.2.2.1 true := by
  have hpre : listPre "@@ -".data l.data = true := by
    by_cases hc : listPre "@@ -".data l.data = true
    · exact hc
    · have hcf : listPre "@@ -".data l.data = false := by
        revert hc
        cases listPre "@@ -".data l.data <;> simp
      have hnone : parseHunkHeader l.data = none := by
        simp [parseHunkHeader, hcf]
      rw [hnone] at htu
      exact absurd htu (by simp)
  obtain ⟨t2, hdl⟩ := listPre_exists_append hpre
  have hd : l.data = '@' :: ('@' :: ' ' :: '-' :: t2) := hdl.trans rfl
  have hmeta : isMetadataLine l = false :=
    isMetadataLine_false_head l '@' _ hd (by decide) (by decide) (by decide) (by decide)
      (by decide) (by decide) (by decide)
  simp only [parseChangesGo]
  simp [hmeta, htu]

/-- Loop lemma for the numbering refinement: from any in-hunk state, the
parser's classification of well-formed rendered tokens is exactly the
numbering rule of the spec. -/
theorem parseChanges_spec_loop (toks : List HunkTok) : ∀ (o n : Nat),
    (∀ t ∈ toks, GoodTok t) →
    parseChangesGo (toks.map renderTok) o n true = specHunkNumber o n toks := by
  induction toks with
  | nil => intro o n _; rfl
  | cons tk ts ih =>
    intro o n h
    have htk : GoodTok tk := h tk (List.mem_cons_self tk ts)
    have hts : ∀ t ∈ ts, GoodTok t := fun t ht => h t (List.mem_cons_of_mem tk ht)
    cases tk with
    | header line a b =>
      have htk2 : hunkStarts line.data = some (a, b) := htk
      rw [hunkStarts] at htk2
      obtain ⟨tu, htu, hab⟩ := Option.map_eq_some'.mp htk2
      have h1 : tu.1 = a := congrArg Prod.fst hab
      have h2 : tu.2.2.1 = b := congrArg Prod.snd hab
      rw [List.map_cons]
      rw [show renderTok (HunkTok.header line a b) = line from rfl]
      rw [parseChangesGo_header line (ts.map renderTok) o n true tu htu]
      simp only [specHunkNumber]
      rw [h1, h2]
      exact ih a b hts
    | ctx s =>
      have hd : (renderTok (HunkTok.ctx s)).data = ' ' :: s.data := rfl
      rw [List.map_cons]
      rw [parseChangesGo_ctx (renderTok (HunkTok.ctx s)) (ts.map renderTok) o n s.data hd]
      have hct : strTail (renderTok (HunkTok.ctx s)) = s := rfl
      rw [hct]
      simp only [specHunkNumber]
      rw [ih (o + 1) (n + 1) hts]
    | rem s =>
      have hd : (renderTok (HunkTok.rem s)).data = '-' :: s.data := rfl
      have h3 : listPre ['-', '-'] s.data = false := htk
      rw [List.map_cons]
      rw [parseChangesGo_rem (renderTok (HunkTok.rem s)) (ts.map renderTok) o n s.data hd h3]
      have hct : strTail (renderTok (HunkTok.rem s)) = s := rfl
      rw [hct]
      simp only [specHunkNumber]
      rw [ih (o + 1) n hts]
    | add s =>
      have hd : (renderTok (HunkTok.add s)).data = '+' :: s.data := rfl
      have h3 : listPre ['+', '+'] s.data = false := htk
      rw [List.map_cons]
      rw [parseChangesGo_add (renderTok (HunkTok.add s)) (ts.map renderTok) o n s.data hd h3]
      have hct : strTail (renderTok (HunkTok.add s)) = s := rfl
      rw [hct]
      simp only [specHunkNumber]
      rw [ih o (n + 1) hts]

/-- Claim C2: for a section body that starts with a hunk header and whose
lines classify as context, removed or added, the parser's output is
exactly the spec numbering — counters reset to the header's start values,
each Context change carries the new counter and advances both, each
Removed change carries the old counter and advances it alone, each Added
change carries the new counter and advances it alone, and the optional
count fields of headers (arbitrary inside GoodTok) have no effect beyond
the header matching the regex shape. -/
theorem C2_hunk_numbering (line : String) (a b : Nat) (toks : List HunkTok)
    (h : ∀ t ∈ HunkTok.header line a b :: toks, GoodTok t) :
    parseChangesGo ((HunkTok.header line a b :: toks).map renderTok) 0 0 false =
      specHunkNumber 0 0 (HunkTok.header line a b :: toks) := by
  have htk : GoodTok (HunkTok.header line a b) := h _ (List.mem_cons_self _ _)
  have htk2 : hunkStarts line.data = some (a, b) := htk
  rw [hunkStarts] at htk2
  obtain ⟨tu, htu, hab⟩ := Option.map_eq_some'.mp htk2
  have h1 : tu.1 = a := congrArg Prod.fst hab
  have h2 : tu.2.2.1 = b := congrArg Prod.snd hab
  rw [List.map_cons]
  rw [show renderTok (HunkTok.header line a b) = line from rfl]
  rw [parseChangesGo_header line (toks.map renderTok) 0 0 false tu htu]
  simp only [specHunkNumber]
  rw [h1, h2]
  exact parseChanges_spec_loop toks a b (fun t ht => h t (List.mem_cons_of_mem _ ht))

/-- Witness for C2 at a concrete hunk. -/
theorem C2_hunk_numbering_witness :
    parseChangesGo (([HunkTok.header "@@ -5,2 +7,3 @@" 5 7, HunkTok.ctx "a", HunkTok.rem "b",
        HunkTok.add "c"]).map renderTok) 0 0 false =
      specHunkNumber 0 0 [HunkTok.header "@@ -5,2 +7,3 @@" 5 7, HunkTok.ctx "a",
        HunkTok.rem "b", HunkTok.add "c"] ∧
    specHunkNumber 0 0 [HunkTok.header "@@ -5,2 +7,3 @@" 5 7, HunkTok.ctx "a",
        HunkTok.rem "b", HunkTok.add "c"] =
      [{ line_number := 7, type := ChangeType.context, content := "a" },
       { line_number := 6, type := ChangeType.removed, content := "b" },
       { line_number := 8, type := ChangeType.added, content := "c" }] :=
  ⟨C2_hunk_numbering "@@ -5,2 +7,3 @@" 5 7 [HunkTok.ctx "a", HunkTok.rem "b", HunkTok.add "c"]
    (by decide), rfl⟩

/-- Claim C3 amended: after a hunk header, classification is by first
character except that lines the metadata filter recognizes are dropped
even inside hunks: a '-' line not beginning with "---" yields Removed with
the marker stripped, a '+' line not beginning with "+++" yields Added,
a ' ' line yields Context, and a '\' line is skipped with no counter
change. -/
theorem C3_amended_classification (l : String) (rest : List String) (o n : Nat) :
    (l.data.head? = some ' ' →
      parseChangesGo (l :: rest) o n true =
        { line_number := n, type := ChangeType.context, content := strTail l } ::
          parseChangesGo rest (o + 1) (n + 1) true) ∧
    (l.data.head? = some '-' → listPre "---".data l.data = false →
      parseChangesGo (l :: rest) o n true =
        { line_number := o, type := ChangeType.removed, content := strTail l } ::
          parseChangesGo rest (o + 1) n true) ∧
    (l.data.head? = some '+' → listPre "+++".data l.data = false →
      parseChangesGo (l :: rest) o n true =
        { line_number := n, type := ChangeType.added, content := strTail l } ::
          parseChangesGo rest o (n + 1) true) ∧
    (l.data.head? = some '\\' →
      parseChangesGo (l :: rest) o n true = parseChangesGo rest o n true) := by
  refine ⟨?_, ?_, ?_, ?_⟩
  · intro h
    rcases hv : l.data with _ | ⟨c, t⟩
    · rw [hv] at h; exact absurd h (by simp)
    · rw [hv] at h
      simp only [List.head?_cons, Option.some.injEq] at h
      subst h
      exact parseChangesGo_ctx l rest o n t hv
  · intro h hm
    rcases hv : l.data with _ | ⟨c, t⟩
    · rw [hv] at h; exact absurd h (by simp)
    · rw [hv] at h
      simp only [List.head?_cons, Option.some.injEq] at h
      subst h
      rw [hv, data_meta1] at hm
      have h3 : listPre ['-', '-'] t = false := by
        simpa [listPre_cons] using hm
      exact parseChangesGo_rem l rest o n t hv h3
  · intro h hm
    rcases hv : l.data with _ | ⟨c, t⟩
    · rw [hv] at h; exact absurd h (by simp)
    · rw [hv] at h
      simp only [List.head?_cons, Option.some.injEq] at h
      subst h
      rw [hv, data_meta2] at hm
      have h3 : listPre ['+', '+'] t = false := by
        simpa [listPre_cons] using hm
      exact parseChangesGo_add l rest o n t hv h3
  · intro h
    rcases hv : l.data with _ | ⟨c, t⟩
    · rw [hv] at h; exact absurd h (by simp)
    · rw [hv] at h
      simp only [List.head?_cons, Option.some.injEq] at h
      subst h
      exact parseChangesGo_backslash l rest o n t hv

/-- Witness for the amended C3 at concrete lines of each kind. -/
theorem C3_amended_classification_witness :
    parseChangesGo [" a"] 1 2 true =
      [{ line_number := 2, type := ChangeType.context, content := "a" }] ∧
    parseChangesGo ["-b"] 1 2 true =
      [{ line_number := 1, type := ChangeType.removed, content := "b" }] ∧
    parseChangesGo ["+c"] 1 2 true =
      [{ line_number := 2, type := ChangeType.added, content := "c" }] ∧
    parseChangesGo ["\\ No newline at end of file"] 1 2 true = [] := by
  refine ⟨?_, ?_, ?_, ?_⟩
  · exact ((C3_amended_classification " a" [] 1 2).1 (by decide)).trans rfl
  · exact ((C3_amended_classification "-b" [] 1 2).2.1 (by decide) (by decide)).trans rfl
  · exact ((C3_amended_classification "+c" [] 1 2).2.2.1 (by decide) (by decide)).trans rfl
  · exact ((C3_amended_classification "\\ No newline at end of file" [] 1 2).2.2.2 (by decide)).trans rfl

/-- Claim C4 counterexample: in a fallback-style section whose old and new
paths differ, the first matching header line is the old-path line
"--- a/old.py", so the recorded filename is the source path, not the
destination path new.py required by the claim. -/
theorem C4_counterexample :
    parse_diff "--- a/old.py\n+++ b/new.py\n@@ -1 +1 @@\n-x\n+y" =
      Except.ok { files := [{ filename := "old.py", changes := [
        { line_number := 1, type := ChangeType.removed, content := "x" },
        { line_number := 1, type := ChangeType.added, content := "y" }] }] } ∧
    "old.py" ≠ "new.py" := by
  exact ⟨rfl, by decide⟩

/-- Claim C4 amended: the filename of a section comes from the first
matching header line, scanned in order: a "--- a/" line contributes the
source path (prefix stripped, tab-suffix discarded), a "+++ b/" line the
destination path, and a matching "diff --git" line its second (destination)
path. The code prefers whichever appears first, not the destination. -/
theorem C4_amended_first_match (l : String) (rest : List String) :
    (pyStartsWith l "--- a/" = true →
      extractFilenameGo (l :: rest) =
        Except.ok ((pySplit '\t' (pyStrip (strDrop 6 l))).headD "")) ∧
    (pyStartsWith l "--- a/" = false → pyStartsWith l "+++ b/" = true →
      extractFilenameGo (l :: rest) =
        Except.ok ((pySplit '\t' (pyStrip (strDrop 6 l))).headD "")) ∧
    (pyStartsWith l "--- a/" = false → pyStartsWith l "+++ b/" = false →
      pyStartsWith l "diff --git" = true →
      ∀ p1 p2 : List Char, searchDiffGit l.data = some (p1, p2) →
        extractFilenameGo (l :: rest) = Except.ok (pyStrip ⟨p2⟩)) := by
  refine ⟨?_, ?_, ?_⟩
  · intro h1
    simp only [extractFilenameGo, h1, if_true]
    exact pyIndex_zero_headD _ "" (pySplit_ne_nil _ _)
  · intro h1 h2
    simp only [extractFilenameGo, h1, h2, Bool.false_eq_true, if_false, if_true]
    exact pyIndex_zero_headD _ "" (pySplit_ne_nil _ _)
  · intro h1 h2 h3 p1 p2 hs
    simp only [extractFilenameGo, h1, h2, h3, Bool.false_eq_true, if_false, if_true]
    rw [hs]

/-- Witness for the amended C4 on one concrete line of each header kind. -/
theorem C4_amended_first_match_witness :
    extractFilenameGo ["--- a/old.py\tmeta"] = Except.ok "old.py" ∧
    extractFilenameGo ["+++ b/new.py"] = Except.ok "new.py" ∧
    extractFilenameGo ["diff --git a/p.py b/q.py"] = Except.ok "q.py" := by
  refine ⟨?_, ?_, ?_⟩
  · exact ((C4_amended_first_match "--- a/old.py\tmeta" []).1 (by decide)).trans (by rfl)
  · exact ((C4_amended_first_match "+++ b/new.py" []).2.1 (by decide) (by decide)).trans (by rfl)
  · exact ((C4_amended_first_match "diff --git a/p.py b/q.py" []).2.2 (by decide) (by decide)
      (by decide) "p.py".data "q.py".data (by rfl)).trans (by rfl)

/-- Membership of the dedup loop: the kept elements are those of the input
that are not in the seen accumulator. -/
theorem mem_dedupFOGo {α : Type} [DecidableEq α] (l : List α) :
    ∀ (seen : List α) (a : α), a ∈ dedupFOGo seen l ↔ a ∈ l ∧ a ∉ seen := by
  induction l with
  | nil => intro seen a; simp [dedupFOGo]
  | cons x xs ih =>
    intro seen a
    simp only [dedupFOGo]
    by_cases hx : x ∈ seen
    · rw [if_pos hx, ih]
      simp only [List.mem_cons]
      constructor
      · exact fun h => ⟨Or.inr h.1, h.2⟩
      · rintro ⟨rfl | h1, h2⟩
        · exact absurd hx h2
        · exact ⟨h1, h2⟩
    · rw [if_neg hx]
      simp only [List.mem_cons, ih, List.mem_append, List.mem_singleton]
      constructor
      · rintro (rfl | ⟨h1, h2⟩)
        · exact ⟨Or.inl rfl, hx⟩
        · exact ⟨Or.inr h1, fun hs => h2 (Or.inl hs)⟩
      · rintro ⟨h1, h2⟩
        rcases h1 with rfl | h1
        · exact Or.inl rfl
        · by_cases hax : a = x
          · exact Or.inl hax
          · refine Or.inr ⟨h1, ?_⟩
            intro hs
            rcases hs with hs | hs | hs
            · exact h2 hs
            · exact hax hs
            · exact absurd hs (List.not_mem_nil a)

/-- First-occurrence dedup keeps exactly the elements of the input. -/
theorem dedupFO_mem {α : Type} [DecidableEq α] (l : List α) (a : α) :
    a ∈ dedupFO l ↔ a ∈ l := by
  rw [dedupFO, mem_dedupFOGo]
  simp

/-- The dedup loop never repeats an element. -/
theorem nodup_dedupFOGo {α : Type} [DecidableEq α] (l : List α) :
    ∀ seen : List α, (dedupFOGo seen l).Nodup := by
  induction l with
  | nil => intro seen; simp [dedupFOGo]
  | cons x xs ih =>
    intro seen
    simp only [dedupFOGo]
    by_cases hx : x ∈ seen
    · rw [if_pos hx]; exact ih seen
    · rw [if_neg hx]
      refine List.nodup_cons.mpr ⟨?_, ih (seen ++ [x])⟩
      intro hmem
      exact ((mem_dedupFOGo xs _ x).mp hmem).2
        (List.mem_append.mpr (Or.inr (List.mem_singleton.mpr rfl)))

/-- First-occurrence dedup has no duplicates. -/
theorem dedupFO_nodup {α : Type} [DecidableEq α] (l : List α) : (dedupFO l).Nodup :=
  nodup_dedupFOGo l []

/-- The dedup loop returns nothing exactly when everything was seen. -/
theorem dedupFOGo_eq_nil_iff {α : Type} [DecidableEq α] (l : List α) :
    ∀ seen : List α, dedupFOGo seen l = [] ↔ ∀ a ∈ l, a ∈ seen := by
  induction l with
  | nil => intro seen; simp [dedupFOGo]
  | cons x xs ih =>
    intro seen
    simp only [dedupFOGo]
    by_cases hx : x ∈ seen
    · rw [if_pos hx, ih]
      simp [hx]
    · rw [if_neg hx]
      simp [hx]

/-- A deduped cons has one element exactly when every element equals the
head. -/
theorem dedupFO_cons_length_one {α : Type} [DecidableEq α] (v : α) (xs : List α) :
    (dedupFO (v :: xs)).length = 1 ↔ ∀ a ∈ xs, a = v := by
  have hstep : dedupFO (v :: xs) = v :: dedupFOGo [v] xs := by
    rw [dedupFO]
    show (if v ∈ ([] : List α) then dedupFOGo [] xs else v :: dedupFOGo ([] ++ [v]) xs) = _
    rw [if_neg (List.not_mem_nil v)]
    rfl
  rw [hstep, List.length_cons]
  constructor
  · intro h
    have h0 : (dedupFOGo [v] xs).length = 0 := by omega
    have hnil : dedupFOGo [v] xs = [] := List.length_eq_zero.mp h0
    intro a ha
    have := (dedupFOGo_eq_nil_iff xs [v]).mp hnil a ha
    simpa using this
  · intro h
    have hnil : dedupFOGo [v] xs = [] := by
      rw [dedupFOGo_eq_nil_iff]
      intro a ha
      simp [h a ha]
    rw [hnil]
    simp

/-- Any set enumeration is a permutation of the first-occurrence dedup. -/
theorem isSetEnum_perm_dedupFO (ys xs : List String) (h : IsSetEnum ys xs) :
    ys.Perm (dedupFO xs) := by
  rw [List.perm_ext_iff_of_nodup h.1 (dedupFO_nodup xs)]
  intro a
  rw [dedupFO_mem]
  exact ⟨fun ha => h.2.1 a ha, fun ha => h.2.2 a ha⟩

/-- When every listed value equals the head value, any set enumeration is
the singleton of that value. -/
theorem setEnum_all_eq (ys : List String) (v : String) (xs : List String)
    (h : IsSetEnum ys (v :: xs)) (hall : ∀ a ∈ v :: xs, a = v) : ys = [v] := by
  have hsub : ∀ a ∈ ys, a = v := fun a ha => hall a (h.2.1 a ha)
  have hv : v ∈ ys := h.2.2 v (List.mem_cons_self v xs)
  rcases ys with _ | ⟨y1, ys1⟩
  · exact absurd hv (List.not_mem_nil v)
  · rcases ys1 with _ | ⟨y2, ys2⟩
    · rw [hsub y1 (List.mem_cons_self _ _)]
    · have h1 : y1 = v := hsub y1 (by simp)
      have h2 : y2 = v := hsub y2 (by simp)
      have hnd := h.1
      rw [h1, h2] at hnd
      exact absurd (List.mem_cons_self v ys2) (List.nodup_cons.mp hnd).1

/-- Two distinct listed values force any set enumeration to have more than
one element. -/
theorem setEnum_not_len_one (ys xs : List String) (a b : String) (h : IsSetEnum ys xs)
    (ha : a ∈ xs) (hb : b ∈ xs) (hab : a ≠ b) : ys.length ≠ 1 := by
  intro hlen
  obtain ⟨y, rfl⟩ := List.length_eq_one.mp hlen
  have h1 : a = y := by simpa using h.2.2 a ha
  have h2 : b = y := by simpa using h.2.2 b hb
  exact hab (h1.trans h2.symm)

/-- First-occurrence dedup is itself an admissible set enumeration. -/
theorem dedupFO_isSetEnum (xs : List String) : IsSetEnum (dedupFO xs) xs :=
  ⟨dedupFO_nodup xs, fun a ha => (dedupFO_mem xs a).mp ha,
    fun a ha => (dedupFO_mem xs a).mpr ha⟩

/-- Deduplicating a two-element repetition keeps one occurrence. -/
theorem dedupFO_pair_same {α : Type} [DecidableEq α] (k : α) : dedupFO [k, k] = [k] := by
  simp [dedupFO, dedupFOGo]

/-- Claim C7: issue_type is preserved exactly when every group member
agrees, and is the literal "multiple_issues" when two members differ; in
particular two same-location findings with different types collapse to one
merged finding with issue_type "multiple_issues" and merged_from 2. -/
theorem C7_issue_type_collapse (e : List String → List String) (b : Finding) (t : List Finding) :
    ((∀ i ∈ b :: t, i.issue_type = b.issue_type) →
      (_merge_issues_at_location e (b :: t)).issue_type = b.issue_type) ∧
    ((∃ i ∈ b :: t, i.issue_type ≠ b.issue_type) →
      (_merge_issues_at_location e (b :: t)).issue_type = "multiple_issues") ∧
    (∀ f g : Finding, f.file = g.file → f.line = g.line → f.issue_type ≠ g.issue_type →
      (_merge_duplicate_issues e [f, g]).map (fun i => (i.issue_type, i.merged_from)) =
        [("multiple_issues", some 2)]) := by
  refine ⟨?_, ?_, ?_⟩
  · intro h
    have hlen : (dedupFO (b.issue_type :: t.map Finding.issue_type)).length = 1 := by
      rw [dedupFO_cons_length_one]
      intro a ha
      obtain ⟨i, hi, rfl⟩ := List.mem_map.mp ha
      exact h i (List.mem_cons_of_mem b hi)
    simp [_merge_issues_at_location, hlen]
  · intro h
    have hlen : ¬(dedupFO (b.issue_type :: t.map Finding.issue_type)).length = 1 := by
      intro hall1
      rw [dedupFO_cons_length_one] at hall1
      obtain ⟨i, hi, hne⟩ := h
      rcases List.mem_cons.mp hi with rfl | hi2
      · exact hne rfl
      · exact hne (hall1 i.issue_type (List.mem_map_of_mem Finding.issue_type hi2))
    have hcond : ((dedupFO (b.issue_type :: t.map Finding.issue_type)).length == 1) = false := by
      rw [beq_eq_false_iff_ne]; exact hlen
    simp [_merge_issues_at_location, hcond]
  · intro f g hfile hline hty
    have hkey : findingKey g = findingKey f := by
      simp [findingKey, hfile, hline]
    have hdk : dedupFO ([f, g].map findingKey) = [findingKey f] := by
      have hm : [f, g].map findingKey = [findingKey f, findingKey f] := by simp [hkey]
      rw [hm, dedupFO_pair_same]
    have hgrp : [f, g].filter (fun i => decide (findingKey i = findingKey f)) = [f, g] := by
      simp [List.filter_cons, List.filter_nil, hkey]
    have hty2 : ¬(dedupFO [f.issue_type, g.issue_type]).length = 1 := by
      intro hlen1
      rw [dedupFO_cons_length_one] at hlen1
      exact hty (hlen1 g.issue_type (by simp)).symm
    have hcond2 : ((dedupFO [f.issue_type, g.issue_type]).length == 1) = false := by
      rw [beq_eq_false_iff_ne]; exact hty2
    unfold _merge_duplicate_issues
    rw [if_neg (by simp)]
    rw [hdk]
    simp only [List.map_cons, List.map_nil]
    unfold mergeGroupAt
    simp only [hgrp]
    rw [if_neg (by simp)]
    simp [_merge_issues_at_location, hcond2]

/-- Witness for C7: the collapse behaviour on concrete findings. -/
theorem C7_issue_type_collapse_witness :
    (_merge_issues_at_location dedupFO [findingDescA, findingDescB]).issue_type = "t" ∧
    (_merge_issues_at_location dedupFO [sampleFinding, sampleFindingT2]).issue_type =
      "multiple_issues" ∧
    (_merge_duplicate_issues dedupFO [sampleFinding, sampleFindingT2]).map
        (fun i => (i.issue_type, i.merged_from)) = [("multiple_issues", some 2)] := by
  refine ⟨?_, ?_, ?_⟩
  · exact ((C7_issue_type_collapse dedupFO findingDescA [findingDescB]).1 (by decide)).trans rfl
  · exact (C7_issue_type_collapse dedupFO sampleFinding [sampleFindingT2]).2.1 (by decide)
  · exact (C7_issue_type_collapse dedupFO sampleFinding []).2.2 sampleFinding sampleFindingT2
      rfl rfl (by decide)

/-- Claim C6 counterexample: Python's list(set(...)) may enumerate the two
distinct descriptions a, b as b, a (hash-iteration order); under that
admissible enumeration the merged description is "Multiple issues
detected: b; a", not the first-occurrence join the claim requires. -/
theorem C6_counterexample :
    IsSetEnum (revDedup ["a", "b"]) ["a", "b"] ∧
    (_merge_issues_at_location revDedup [findingDescA, findingDescB]).description =
      "Multiple issues detected: b; a" ∧
    "Multiple issues detected: b; a" ≠ "Multiple issues detected: a; b" := by
  refine ⟨by decide, by rfl, by decide⟩

/-- Claim C6 amended: the distinct-value and cap rules hold, but the order
and selection of the joined values follow the unspecified set enumeration,
not first-occurrence order: the enumeration is some permutation of the
distinct values; a single distinct description (suggestion) is kept as is;
otherwise the first 3 (2) values of the enumeration are joined with the
stated prefixes. -/
theorem C6_amended_description_merge (e : List String → List String)
    (he : ∀ xs, IsSetEnum (e xs) xs) (b : Finding) (t : List Finding) :
    (e ((b :: t).map Finding.description)).Perm
      (dedupFO ((b :: t).map Finding.description)) ∧
    (e ((b :: t).map Finding.suggestion)).Perm
      (dedupFO ((b :: t).map Finding.suggestion)) ∧
    ((∀ i ∈ b :: t, i.description = b.description) →
      (_merge_issues_at_location e (b :: t)).description = b.description) ∧
    ((∃ i ∈ b :: t, i.description ≠ b.description) →
      (_merge_issues_at_location e (b :: t)).description =
        "Multiple issues detected: " ++
          joinSemi ((e ((b :: t).map Finding.description)).take 3)) ∧
    ((∀ i ∈ b :: t, i.suggestion = b.suggestion) →
      (_merge_issues_at_location e (b :: t)).suggestion = b.suggestion) ∧
    ((∃ i ∈ b :: t, i.suggestion ≠ b.suggestion) →
      (_merge_issues_at_location e (b :: t)).suggestion =
        "Consider: " ++ joinSemi ((e ((b :: t).map Finding.suggestion)).take 2)) := by
  refine ⟨isSetEnum_perm_dedupFO _ _ (he _), isSetEnum_perm_dedupFO _ _ (he _), ?_, ?_, ?_, ?_⟩
  · intro h
    have hall : ∀ a ∈ b.description :: t.map Finding.description, a = b.description := by
      intro a ha
      rcases List.mem_cons.mp ha with rfl | ha2
      · rfl
      · obtain ⟨i, hi, rfl⟩ := List.mem_map.mp ha2
        exact h i (List.mem_cons_of_mem b hi)
    have heq : e (b.description :: t.map Finding.description) = [b.description] :=
      setEnum_all_eq _ _ _ (he _) hall
    simp [_merge_issues_at_location, heq]
  · intro h
    obtain ⟨i, hi, hne⟩ := h
    have hlen : (e (b.description :: t.map Finding.description)).length ≠ 1 := by
      refine setEnum_not_len_one _ _ i.description b.description (he _) ?_ ?_ hne
      · exact List.mem_map_of_mem Finding.description hi
      · exact List.mem_map_of_mem Finding.description (List.mem_cons_self b t)
    have hcond : ((e (b.description :: t.map Finding.description)).length == 1) = false := by
      rw [beq_eq_false_iff_ne]; exact hlen
    simp [_merge_issues_at_location, hcond]
  · intro h
    have hall : ∀ a ∈ b.suggestion :: t.map Finding.suggestion, a = b.suggestion := by
      intro a ha
      rcases List.mem_cons.mp ha with rfl | ha2
      · rfl
      · obtain ⟨i, hi, rfl⟩ := List.mem_map.mp ha2
        exact h i (List.mem_cons_of_mem b hi)
    have heq : e (b.suggestion :: t.map Finding.suggestion) = [b.suggestion] :=
      setEnum_all_eq _ _ _ (he _) hall
    simp [_merge_issues_at_location, heq]
  · intro h
    obtain ⟨i, hi, hne⟩ := h
    have hlen : (e (b.suggestion :: t.map Finding.suggestion)).length ≠ 1 := by
      refine setEnum_not_len_one _ _ i.suggestion b.suggestion (he _) ?_ ?_ hne
      · exact List.mem_map_of_mem Finding.suggestion hi
      · exact List.mem_map_of_mem Finding.suggestion (List.mem_cons_self b t)
    have hcond : ((e (b.suggestion :: t.map Finding.suggestion)).length == 1) = false := by
      rw [beq_eq_false_iff_ne]; exact hlen
    simp [_merge_issues_at_location, hcond]

/-- Witness for the amended C6 with the first-occurrence enumeration. -/
theorem C6_amended_description_merge_witness :
    (_merge_issues_at_location dedupFO [findingDescA, findingDescB]).description =
      "Multiple issues detected: " ++
        joinSemi ((dedupFO ([findingDescA, findingDescB].map Finding.description)).take 3) ∧
    (_merge_issues_at_location dedupFO [findingDescA, findingDescB]).suggestion = "s" := by
  constructor
  · exact (C6_amended_description_merge dedupFO dedupFO_isSetEnum findingDescA
      [findingDescB]).2.2.2.1 (by decide)
  · exact ((C6_amended_description_merge dedupFO dedupFO_isSetEnum findingDescA
      [findingDescB]).2.2.2.2.1 (by decide)).trans rfl

/-- A key occurring among the findings has a nonempty group. -/
theorem grp_ne_nil (A : List Finding) (k : String × Int) (hk : k ∈ A.map findingKey) :
    A.filter (fun i => decide (findingKey i = k)) ≠ [] := by
  obtain ⟨i, hi, rfl⟩ := List.mem_map.mp hk
  intro hC
  have hmem : i ∈ A.filter fun j => decide (findingKey j = findingKey i) :=
    List.mem_filter.mpr ⟨hi, by simp⟩
  rw [hC] at hmem
  exact absurd hmem (List.not_mem_nil i)

/-- Every member of a key's group has that key. -/
theorem grp_key (A : List Finding) (k : String × Int) (x : Finding)
    (hx : x ∈ A.filter fun i => decide (findingKey i = k)) : findingKey x = k := by
  have := (List.mem_filter.mp hx).2
  simpa using this

/-- The group representative produced at a key has that key. -/
theorem mergeGroupAt_key (e : List String → List String) (A : List Finding)
    (k : String × Int) (hk : k ∈ A.map findingKey) : findingKey (mergeGroupAt e A k) = k := by
  unfold mergeGroupAt
  rcases hg : A.filter (fun i => decide (findingKey i = k)) with _ | ⟨b, t⟩
  · exact absurd hg (grp_ne_nil A k hk)
  · have hb : b ∈ A.filter fun i => decide (findingKey i = k) := by
      rw [hg]; exact List.mem_cons_self b t
    have hbk : findingKey b = k := grp_key A k b hb
    simp only [hg]
    by_cases hlen : ((b :: t).length == 1) = true
    · rw [if_pos hlen]
      simpa using hbk
    · rw [if_neg hlen]
      have hkeep : findingKey (_merge_issues_at_location e (b :: t)) = findingKey b := rfl
      rw [hkeep]
      exact hbk

/-- Keys of the merged output: exactly the distinct keys of the input, in
first-occurrence order. -/
theorem merge_dup_keys (e : List String → List String) (A : List Finding) :
    (_merge_duplicate_issues e A).map findingKey = dedupFO (A.map findingKey) := by
  unfold _merge_duplicate_issues
  by_cases hA : A.isEmpty = true
  · rw [if_pos hA]
    have hAe : A = [] := by simpa using hA
    subst hAe
    simp [dedupFO, dedupFOGo]
  · rw [if_neg hA]
    rw [List.map_map]
    have hcong : ∀ k ∈ dedupFO (A.map findingKey), (findingKey ∘ mergeGroupAt e A) k = id k := by
      intro k hk
      have hkm : k ∈ A.map findingKey := (dedupFO_mem _ _).mp hk
      simpa using mergeGroupAt_key e A k hkm
    rw [List.map_congr_left hcong, List.map_id]

/-- Every element of the merged output arises as the group representative
of one distinct key. -/
theorem mem_merge_dup (e : List String → List String) (A : List Finding) (i : Finding)
    (hi : i ∈ _merge_duplicate_issues e A) :
    ∃ k ∈ dedupFO (A.map findingKey), i = mergeGroupAt e A k := by
  unfold _merge_duplicate_issues at hi
  by_cases hA : A.isEmpty = true
  · rw [if_pos hA] at hi
    exact absurd hi (List.not_mem_nil i)
  · rw [if_neg hA] at hi
    obtain ⟨k, hk, hik⟩ := List.mem_map.mp hi
    exact ⟨k, hk, hik.symm⟩

/-- Every tagged flattened finding is a raw analyzer finding with only the
source_agent key added. -/
theorem mem_taggedAll (outputs : List (String × Except Unit (List Finding))) (f : Finding)
    (hf : f ∈ taggedAll outputs) :
    ∃ p ∈ outputs, ∃ f0 ∈ okList p.2, f = { f0 with source_agent := some p.1 } := by
  unfold taggedAll _run_all_agents at hf
  rw [List.map_map, List.map_map] at hf
  rw [List.mem_flatten] at hf
  obtain ⟨l, hl, hfl⟩ := hf
  rw [List.mem_map] at hl
  obtain ⟨p, hp, rfl⟩ := hl
  have hfl2 : f ∈ tagFindings p.1 (okList p.2) := hfl
  unfold tagFindings at hfl2
  rw [List.mem_map] at hfl2
  obtain ⟨f0, hf0, rfl⟩ := hfl2
  exact ⟨p, hp, f0, hf0, rfl⟩

/-- Tagging adds no merge metadata: when the raw analyzer findings carry
none, neither do the tagged flattened ones. -/
theorem taggedAll_no_merge_fields (outputs : List (String × Except Unit (List Finding)))
    (hraw : ∀ p ∈ outputs, ∀ f ∈ okList p.2, f.merged_from = none ∧ f.source_agents = none) :
    ∀ f ∈ taggedAll outputs, f.merged_from = none ∧ f.source_agents = none := by
  intro f hf
  obtain ⟨p, hp, f0, hf0, rfl⟩ := mem_taggedAll outputs f hf
  exact hraw p hp f0 hf0

/-- Claim C5 amended: each (file, line) key occurring among the tagged raw
findings yields exactly one output finding (the output keys are the
distinct input keys); but a group of size 1 passes its finding through
unchanged, with no merged_from or source_agents keys, and only a group of
size greater than 1 yields merged_from equal to the group size and a
source_agents list of the same length. -/
theorem C5_amended_group_merge (e : List String → List String)
    (outputs : List (String × Except Unit (List Finding)))
    (hraw : ∀ p ∈ outputs, ∀ f ∈ okList p.2,
      f.merged_from = none ∧ f.source_agents = none) :
    ((analyze e outputs).all_issues.map findingKey =
      dedupFO ((taggedAll outputs).map findingKey)) ∧
    (∀ i ∈ (analyze e outputs).all_issues,
      (((taggedAll outputs).filter fun j => decide (findingKey j = findingKey i)).length = 1 →
        i.merged_from = none) ∧
      (1 < ((taggedAll outputs).filter fun j => decide (findingKey j = findingKey i)).length →
        i.merged_from =
          some ((taggedAll outputs).filter fun j =>
            decide (findingKey j = findingKey i)).length ∧
        ∃ sa, i.source_agents = some sa ∧
          sa.length = ((taggedAll outputs).filter fun j =>
            decide (findingKey j = findingKey i)).length)) := by
  have hall : (analyze e outputs).all_issues = _merge_duplicate_issues e (taggedAll outputs) := rfl
  constructor
  · rw [hall]
    exact merge_dup_keys e (taggedAll outputs)
  · intro i hi
    rw [hall] at hi
    obtain ⟨k, hk, rfl⟩ := mem_merge_dup e (taggedAll outputs) i hi
    have hkk : findingKey (mergeGroupAt e (taggedAll outputs) k) = k :=
      mergeGroupAt_key e _ k ((dedupFO_mem _ _).mp hk)
    rw [hkk]
    constructor
    · intro hlen1
      obtain ⟨x, hxg⟩ := List.length_eq_one.mp hlen1
      have hrep : mergeGroupAt e (taggedAll outputs) k = x := by
        unfold mergeGroupAt
        rw [hxg]
        rfl
      rw [hrep]
      have hxmem : x ∈ taggedAll outputs := by
        have hxf : x ∈ (taggedAll outputs).filter fun j => decide (findingKey j = k) := by
          rw [hxg]; exact List.mem_cons_self x []
        exact (List.mem_filter.mp hxf).1
      exact (taggedAll_no_merge_fields outputs hraw x hxmem).1
    · intro hlen2
      rcases hg : (taggedAll outputs).filter (fun j => decide (findingKey j = k)) with _ | ⟨b, t⟩
      · rw [hg] at hlen2; simp at hlen2
      · rw [hg] at hlen2
        have hne1 : ¬(((b :: t).length == 1) = true) := by
          intro hx
          simp only [beq_iff_eq] at hx
          simp only [List.length_cons] at hx hlen2
          omega
        have hmga : mergeGroupAt e (taggedAll outputs) k =
            _merge_issues_at_location e (b :: t) := by
          unfold mergeGroupAt
          rw [hg, if_neg hne1]
        rw [hmga]
        refine ⟨rfl, ⟨(b :: t).map (fun j => j.source_agent.getD "unknown"), ?_, ?_⟩⟩
        · rfl
        · simp

/-- Claim C5 counterexample: a single source with a single finding gives a
singleton group; the code passes the finding through without setting
merged_from, where the claim requires merged_from 1 (and equality with the
length of a source_agents list). -/
theorem C5_counterexample :
    ((analyze dedupFO [("A", Except.ok [sampleFinding])]).all_issues.map
      fun i => i.merged_from) = [none] ∧
    (analyze dedupFO [("A", Except.ok [sampleFinding])]).all_issues.length = 1 := ⟨rfl, rfl⟩

/-- Witness for the amended C5 at a concrete two-finding input. -/
theorem C5_amended_group_merge_witness :
    (analyze dedupFO [("A", Except.ok [sampleFinding, sampleFindingT2])]).all_issues.map
        findingKey =
      dedupFO ((taggedAll [("A", Except.ok [sampleFinding, sampleFindingT2])]).map findingKey) :=
  (C5_amended_group_merge dedupFO [("A", Except.ok [sampleFinding, sampleFindingT2])]
    (by decide)).1

/-- Claim C8 amended: agent_results maps each source to its pre-merge
count and finding list, but because the aggregator tags the finding dicts
in place before merging, the listed records are the tagged ones (they
carry source_agent), not pre-tag copies. -/
theorem C8_amended_agent_results_tagged (e : List String → List String)
    (outputs : List (String × Except Unit (List Finding))) :
    ((analyze e outputs).agent_results.map fun p => (p.1, p.2.1)) =
      ((_run_all_agents outputs).map fun p => (p.1, p.2.length)) ∧
    ((analyze e outputs).agent_results.map fun p => p.2.2) =
      ((_run_all_agents outputs).map fun p => tagFindings p.1 p.2) ∧
    ((analyze e outputs).agent_results.map fun p => p.2.1) =
      ((analyze e outputs).agent_results.map fun p => p.2.2.length) := by
  refine ⟨?_, ?_, ?_⟩ <;>
    simp [analyze, analyze_from_results, _format_final_review, List.map_map, tagFindings,
      Function.comp]

/-- Claim C8 counterexample: with one source returning one untagged
finding, the finding listed under agent_results carries the source_agent
tag the aggregator added in place, where the claim requires pre-tag
records. -/
theorem C8_counterexample :
    (analyze dedupFO [("A", Except.ok [sampleFinding])]).agent_results =
      [("A", 1, [{ sampleFinding with source_agent := some "A" }])] ∧
    sampleFinding.source_agent = none ∧
    ({ sampleFinding with source_agent := some "A" }).source_agent ≠ none := by
  refine ⟨rfl, rfl, by simp⟩

/-- Claim C9: a source whose retrieval raises is recorded as the empty
list: the whole Report equals the one produced had that source returned an
empty list, and its issues_by_agent count is 0. -/
theorem C9_failure_isolation (e : List String → List String)
    (pre post : List (String × Except Unit (List Finding))) (nm : String) (u : Unit) :
    analyze e (pre ++ (nm, Except.error u) :: post) =
      analyze e (pre ++ (nm, Except.ok []) :: post) ∧
    (nm, 0) ∈ (analyze e (pre ++ (nm, Except.error u) :: post)).issues_by_agent := by
  have hrun : _run_all_agents (pre ++ (nm, Except.error u) :: post) =
      _run_all_agents (pre ++ (nm, Except.ok []) :: post) := by
    unfold _run_all_agents
    rw [List.map_append, List.map_append]
    rfl
  constructor
  · unfold analyze
    rw [hrun]
  · have hform : (analyze e (pre ++ (nm, Except.error u) :: post)).issues_by_agent =
        ((_run_all_agents (pre ++ (nm, Except.error u) :: post)).map fun t =>
          (t.1, tagFindings t.1 t.2)).map fun t => (t.1, t.2.length) := rfl
    rw [hform]
    unfold _run_all_agents
    rw [List.map_map, List.map_map]
    rw [List.map_append]
    refine List.mem_append.mpr (Or.inr ?_)
    rw [List.map_cons]
    exact List.mem_cons.mpr (Or.inl rfl)

end AutoPR
